import Mathlib

/-!
# Change Order Tracker — verification of the core model

A shallow embedding of the change-order lifecycle core of the
Change_Order_Tracker application (source: `src/index.tsx`): the approval
model, the status-derivation rule applied at save time (`handleSave`), the
collection operations (create/update via `handleSave`, delete, renumber,
import), the approver-reconciliation collapse performed by the form's
`handleSubmit`, and the filter/aggregate engine of the table view.

JavaScript numbers that hold ids are modelled as `Int`; monetary amounts and
day counts are modelled as `ℚ`.  `Date.parse` (`new Date(s).getTime()`) and
`parseFloat`/`parseInt` are external facilities of the host environment and
are modelled as function parameters (`getTime : String → Int`,
`pf : String → Option ℚ`, `pint : String → Option Int`, where `none` stands
for `NaN`).  The empty-string-vs-`null` date sentinel of the source is kept:
stored approval dates are `Option String`, form rows hold a `String` where
`""` plays the role of the falsy empty value.
-/

/-- `ApprovalStatus` from `src/index.tsx`: `'Pending' | 'Approved' | 'Rejected'`. -/
inductive ApprovalStatus where
  | Pending
  | Approved
  | Rejected
deriving DecidableEq, Repr

/-- `ChangeOrderStatus` from `src/index.tsx`:
`'Pending Approval' | 'Approved' | 'Rejected' | 'In Progress' | 'Completed'`. -/
inductive ChangeOrderStatus where
  | PendingApproval
  | Approved
  | Rejected
  | InProgress
  | Completed
deriving DecidableEq, Repr

/-- The string literal each `ChangeOrderStatus` value is at runtime
(used by the status filter's string comparison). -/
def statusToString : ChangeOrderStatus → String
  | ChangeOrderStatus.PendingApproval => "Pending Approval"
  | ChangeOrderStatus.Approved => "Approved"
  | ChangeOrderStatus.Rejected => "Rejected"
  | ChangeOrderStatus.InProgress => "In Progress"
  | ChangeOrderStatus.Completed => "Completed"

/-- `interface Approval` from `src/index.tsx`. -/
structure Approval where
  name : String
  status : ApprovalStatus
  approvalDate : Option String
deriving DecidableEq, Repr

/-- `interface ChangeOrder` from `src/index.tsx`. -/
structure ChangeOrder where
  id : Int
  title : String
  description : String
  reason : String
  status : ChangeOrderStatus
  dateRequested : String
  costImpactEquipment : ℚ
  costImpactInstallation : ℚ
  costImpactOther : ℚ
  otherCostsExplanation : String
  scheduleImpactDays : ℚ
  approvals : List Approval
deriving DecidableEq, Repr

/-- The derived total cost of a change order:
`costImpactEquipment + costImpactInstallation + costImpactOther`
(computed on the fly wherever the source needs it, never stored). -/
def ChangeOrder.totalCost (co : ChangeOrder) : ℚ :=
  co.costImpactEquipment + co.costImpactInstallation + co.costImpactOther

/-- The status-derivation rule of `handleSave` (`src/index.tsx` lines 380–399):
starting from the form's current status, override with `Rejected` if any
approval is rejected; otherwise promote to `Approved` (all approvals approved,
at least one) or demote to `Pending Approval`, in both cases only when the
current status is neither `In Progress` nor `Completed`. -/
def deriveStatus (current : ChangeOrderStatus) (approvals : List Approval) :
    ChangeOrderStatus :=
  let isRejected := approvals.any fun app => app.status == ApprovalStatus.Rejected
  let isFullyApproved :=
    decide (0 < approvals.length) &&
      approvals.all fun app => app.status == ApprovalStatus.Approved
  if isRejected then
    ChangeOrderStatus.Rejected
  else if isFullyApproved then
    if current ≠ ChangeOrderStatus.InProgress ∧ current ≠ ChangeOrderStatus.Completed then
      ChangeOrderStatus.Approved
    else current
  else
    if current ≠ ChangeOrderStatus.InProgress ∧ current ≠ ChangeOrderStatus.Completed then
      ChangeOrderStatus.PendingApproval
    else current

/-- `Math.max(0, ...changeOrders.map(co => co.id))` from the create branch of
`handleSave`. -/
def maxId (orders : List ChangeOrder) : Int :=
  orders.foldl (fun m co => max m co.id) 0

/-- The descending-by-id order used by `sort((a, b) => b.id - a.id)` in the
create branch of `handleSave`. -/
def descById (a b : ChangeOrder) : Prop := b.id ≤ a.id

instance : DecidableRel descById := fun a b =>
  inferInstanceAs (Decidable (b.id ≤ a.id))

instance : IsTotal ChangeOrder descById :=
  ⟨fun a b => le_total b.id a.id⟩

instance : IsTrans ChangeOrder descById :=
  ⟨fun _ _ _ hab hbc => le_trans hbc hab⟩

/-- The collection update performed by `handleSave` (`src/index.tsx`
lines 380–411): derive the effective status, then either insert a fresh entry
with id `Math.max(0, ...ids) + 1` and re-sort descending by id (`id === 0`),
or replace the entry with the matching id in place. `Array.prototype.sort`
is stable, so the sort is embedded as a stable sort by the comparator's
total preorder. -/
def handleSaveOrders (orders : List ChangeOrder) (orderFromForm : ChangeOrder) :
    List ChangeOrder :=
  let orderToSave : ChangeOrder :=
    { orderFromForm with
        status := deriveStatus orderFromForm.status orderFromForm.approvals }
  if orderToSave.id = 0 then
    let newOrder : ChangeOrder := { orderToSave with id := maxId orders + 1 }
    List.insertionSort descById (orders ++ [newOrder])
  else
    orders.map fun co => if co.id = orderToSave.id then orderToSave else co

/-- C1. For every change order saved whose approvals contain at least one
`Rejected` approval, the status derived at commit time is `Rejected`,
regardless of the other approvals and of the order's current status
(including `In Progress` and `Completed`). -/
theorem deriveStatus_rejected (current : ChangeOrderStatus)
    (approvals : List Approval)
    (h : ∃ a ∈ approvals, a.status = ApprovalStatus.Rejected) :
    deriveStatus current approvals = ChangeOrderStatus.Rejected := by
  obtain ⟨a, ha, hstat⟩ := h
  have hany : (approvals.any fun app => app.status == ApprovalStatus.Rejected) = true :=
    List.any_eq_true.mpr ⟨a, ha, by simp [hstat]⟩
  simp [deriveStatus, hany]

/-- Witness for `deriveStatus_rejected`: a mixed approval set with one
rejection on an order already `In Progress` derives `Rejected`. -/
theorem deriveStatus_rejected_witness :
    (∃ a ∈ [(⟨"A", ApprovalStatus.Approved, none⟩ : Approval),
            ⟨"B", ApprovalStatus.Rejected, some "2024-01-02"⟩],
        a.status = ApprovalStatus.Rejected) ∧
    deriveStatus ChangeOrderStatus.InProgress
        [⟨"A", ApprovalStatus.Approved, none⟩,
         ⟨"B", ApprovalStatus.Rejected, some "2024-01-02"⟩] =
      ChangeOrderStatus.Rejected := by
  refine ⟨by decide, deriveStatus_rejected ChangeOrderStatus.InProgress _ (by decide)⟩

/-- C2. For every save with no `Rejected` approval: when the current status is
`In Progress` or `Completed` the derivation is the identity; otherwise the
derived status is `Approved` exactly when the approvals are non-empty and all
`Approved`, and `Pending Approval` in the remaining cases (empty approvals, or
some `Pending` entry). -/
theorem deriveStatus_no_rejection (current : ChangeOrderStatus)
    (approvals : List Approval)
    (h : ∀ a ∈ approvals, a.status ≠ ApprovalStatus.Rejected) :
    ((current = ChangeOrderStatus.InProgress ∨ current = ChangeOrderStatus.Completed) →
        deriveStatus current approvals = current) ∧
    (current ≠ ChangeOrderStatus.InProgress → current ≠ ChangeOrderStatus.Completed →
      approvals ≠ [] → (∀ a ∈ approvals, a.status = ApprovalStatus.Approved) →
        deriveStatus current approvals = ChangeOrderStatus.Approved) ∧
    (current ≠ ChangeOrderStatus.InProgress → current ≠ ChangeOrderStatus.Completed →
      (approvals = [] ∨ ∃ a ∈ approvals, a.status = ApprovalStatus.Pending) →
        deriveStatus current approvals = ChangeOrderStatus.PendingApproval) := by
  have hany : (approvals.any fun app => app.status == ApprovalStatus.Rejected) = false := by
    simp only [List.any_eq_false]
    intro a ha
    simpa using h a ha
  refine ⟨?_, ?_, ?_⟩
  · rintro (rfl | rfl) <;> simp [deriveStatus, hany]
  · intro h1 h2 hne hall
    have hfull :
        (decide (0 < approvals.length) &&
          approvals.all fun app => app.status == ApprovalStatus.Approved) = true := by
      rw [Bool.and_eq_true]
      refine ⟨?_, ?_⟩
      · simpa using List.length_pos.mpr hne
      · exact List.all_eq_true.mpr fun a ha => by simp [hall a ha]
    simp [deriveStatus, hany, hfull, h1, h2]
  · intro h1 h2 hcase
    have hfull :
        (decide (0 < approvals.length) &&
          approvals.all fun app => app.status == ApprovalStatus.Approved) = false := by
      rcases hcase with rfl | ⟨a, ha, hstat⟩
      · simp
      · refine Bool.and_eq_false_iff.mpr (Or.inr ?_)
        refine List.all_eq_false.mpr ⟨a, ha, ?_⟩
        simp [hstat]
    simp [deriveStatus, hany, hfull, h1, h2]

/-- Witness for `deriveStatus_no_rejection`: with one `Approved` and one
`Pending` approval and current status `Pending Approval`, the derived status is
`Pending Approval` (spec scenario 2). -/
theorem deriveStatus_no_rejection_witness :
    (∀ a ∈ [(⟨"A", ApprovalStatus.Approved, some "2024-01-02"⟩ : Approval),
            ⟨"B", ApprovalStatus.Pending, none⟩],
        a.status ≠ ApprovalStatus.Rejected) ∧
    deriveStatus ChangeOrderStatus.PendingApproval
        [⟨"A", ApprovalStatus.Approved, some "2024-01-02"⟩,
         ⟨"B", ApprovalStatus.Pending, none⟩] =
      ChangeOrderStatus.PendingApproval := by
  refine ⟨by decide, ?_⟩
  exact (deriveStatus_no_rejection ChangeOrderStatus.PendingApproval _ (by decide)).2.2
    (by decide) (by decide) (Or.inr (by decide))

theorem foldl_max_le_acc (l : List ChangeOrder) (init : Int) :
    init ≤ l.foldl (fun m co => max m co.id) init := by
  induction l generalizing init with
  | nil => exact le_refl _
  | cons x xs ih => exact le_trans (le_max_left init x.id) (ih (max init x.id))

theorem foldl_max_mem_le (l : List ChangeOrder) (init : Int) :
    ∀ co ∈ l, co.id ≤ l.foldl (fun m co => max m co.id) init := by
  induction l generalizing init with
  | nil => intro co hco; simp at hco
  | cons x xs ih =>
    intro co hco
    rcases List.mem_cons.mp hco with rfl | hmem
    · exact le_trans (le_max_right init co.id) (foldl_max_le_acc xs _)
    · exact ih (max init x.id) co hmem

theorem foldl_max_cases (l : List ChangeOrder) (init : Int) :
    l.foldl (fun m co => max m co.id) init = init ∨
      ∃ co ∈ l, l.foldl (fun m co => max m co.id) init = co.id := by
  induction l generalizing init with
  | nil => exact Or.inl rfl
  | cons x xs ih =>
    rcases ih (max init x.id) with heq | ⟨co, hco, heq⟩
    · rcases max_choice init x.id with hmax | hmax
      · exact Or.inl (by simpa [hmax] using heq)
      · exact Or.inr ⟨x, List.mem_cons_self x xs, by simpa [hmax] using heq⟩
    · exact Or.inr ⟨co, List.mem_cons_of_mem x hco, heq⟩

/-- C3. Committing an order with `id = 0` (create) stores a new entry whose id
is `max(existing ids ∪ spread-floor 0) + 1` — the conjuncts characterise
`maxId` as an upper bound of the existing ids that is either `0` or attained —
so an empty collection assigns id `1`, and afterwards the whole collection is
sorted descending by id. -/
theorem save_create (orders : List ChangeOrder) (order : ChangeOrder)
    (h : order.id = 0) :
    (handleSaveOrders orders order).Perm
        ({ order with
            status := deriveStatus order.status order.approvals,
            id := maxId orders + 1 } :: orders) ∧
    (∀ co ∈ orders, co.id ≤ maxId orders) ∧
    (maxId orders = 0 ∨ ∃ co ∈ orders, maxId orders = co.id) ∧
    (orders = [] → maxId orders + 1 = 1) ∧
    List.Sorted descById (handleSaveOrders orders order) := by
  have hbranch :
      handleSaveOrders orders order =
        List.insertionSort descById
          (orders ++
            [{ order with
                status := deriveStatus order.status order.approvals,
                id := maxId orders + 1 }]) := by
    simp [handleSaveOrders, h]
  refine ⟨?_, foldl_max_mem_le orders 0, foldl_max_cases orders 0, ?_, ?_⟩
  · rw [hbranch]
    exact (List.perm_insertionSort _ _).trans (List.perm_append_singleton _ _)
  · rintro rfl; simp [maxId]
  · rw [hbranch]
    exact List.sorted_insertionSort descById _

def c3order : ChangeOrder :=
  { id := 0, title := "New scope", description := "d", reason := "r",
    status := ChangeOrderStatus.PendingApproval, dateRequested := "2024-04-01",
    costImpactEquipment := 0, costImpactInstallation := 0, costImpactOther := 0,
    otherCostsExplanation := "", scheduleImpactDays := 0, approvals := [] }

/-- Witness for `save_create`: creating on the empty collection assigns id `1`
and yields a descending-sorted collection. -/
theorem save_create_witness :
    c3order.id = 0 ∧ (maxId [] + 1 = 1) ∧
      List.Sorted descById (handleSaveOrders [] c3order) := by
  refine ⟨rfl, (save_create [] c3order rfl).2.2.2.1 rfl,
    (save_create [] c3order rfl).2.2.2.2⟩

def c7existing : ChangeOrder :=
  { id := 1, title := "Existing", description := "d", reason := "r",
    status := ChangeOrderStatus.PendingApproval, dateRequested := "2024-01-01",
    costImpactEquipment := 0, costImpactInstallation := 0, costImpactOther := 0,
    otherCostsExplanation := "", scheduleImpactDays := 0, approvals := [] }

def c7missing : ChangeOrder := { c7existing with id := 5, title := "Ghost" }

/-- Counterexample to C7's error clause: committing an order whose non-zero id
(`5`) matches no entry of the collection `[id 1]` does not fail — `handleSave`
completes normally and simply leaves the collection unchanged (a silent
no-op); no `NotFound` error exists anywhere on this path. -/
theorem update_missing_id_counterexample :
    c7missing.id ≠ 0 ∧ c7existing.id ≠ c7missing.id ∧
      handleSaveOrders [c7existing] c7missing = [c7existing] := by
  refine ⟨by decide, by decide, rfl⟩

/-- C7 (amended). Committing an order with non-zero id replaces every entry
with the matching id wholesale (status re-derived), keeps all other entries
and their positions unchanged (no re-sort); when no entry has that id the
collection is returned unchanged, silently, with no error. -/
theorem save_update (orders : List ChangeOrder) (order : ChangeOrder)
    (h : order.id ≠ 0) :
    (∀ i : Nat,
        (handleSaveOrders orders order)[i]? =
          (orders[i]?).map fun co =>
            if co.id = order.id then
              { order with status := deriveStatus order.status order.approvals }
            else co) ∧
    ((∀ co ∈ orders, co.id ≠ order.id) → handleSaveOrders orders order = orders) := by
  have hbranch :
      handleSaveOrders orders order =
        orders.map fun co =>
          if co.id = order.id then
            { order with status := deriveStatus order.status order.approvals }
          else co := by
    simp [handleSaveOrders, h]
  constructor
  · intro i
    rw [hbranch, List.getElem?_map]
  · intro hnone
    rw [hbranch]
    have hid : ∀ co ∈ orders,
        (if co.id = order.id then
          { order with status := deriveStatus order.status order.approvals }
        else co) = co := fun co hco => if_neg (hnone co hco)
    rw [List.map_congr_left hid]
    simp

/-- Witness for `save_update`: updating the empty collection with a non-zero
id is a silent no-op. -/
theorem save_update_witness :
    c7missing.id ≠ 0 ∧ handleSaveOrders [] c7missing = [] :=
  ⟨by decide, (save_update [] c7missing (by decide)).2 (by simp)⟩

/-- The ascending order on `dateRequested` used by `handleRenumber`'s
`sort((a, b) => new Date(a.dateRequested).getTime() - new Date(b.dateRequested).getTime())`,
parameterised by the host's date parser `getTime`. -/
def dateLe (getTime : String → Int) (a b : ChangeOrder) : Prop :=
  getTime a.dateRequested ≤ getTime b.dateRequested

instance (getTime : String → Int) : DecidableRel (dateLe getTime) := fun a b =>
  inferInstanceAs (Decidable (getTime a.dateRequested ≤ getTime b.dateRequested))

instance (getTime : String → Int) : IsTotal ChangeOrder (dateLe getTime) :=
  ⟨fun _ _ => le_total _ _⟩

instance (getTime : String → Int) : IsTrans ChangeOrder (dateLe getTime) :=
  ⟨fun _ _ _ => le_trans⟩

/-- `sortedOrders.map((order, index) => ({...order, id: index + 1}))` from
`handleRenumber`, with the running index made explicit: assigns `id := n`,
`n + 1`, … positionally. -/
def renumberFrom (n : Int) : List ChangeOrder → List ChangeOrder
  | [] => []
  | o :: os => { o with id := n } :: renumberFrom (n + 1) os

/-- The collection part of `handleRenumber` (`src/index.tsx` lines 427–447):
a no-op on the empty collection (alert only); otherwise a stable sort
ascending by `dateRequested` followed by 1-based positional id reassignment.
`Array.prototype.sort` is stable, so it is embedded as a stable sort by the
comparator's total preorder. -/
def handleRenumber (getTime : String → Int) (orders : List ChangeOrder) :
    List ChangeOrder :=
  if orders.length = 0 then orders
  else renumberFrom 1 (List.insertionSort (dateLe getTime) orders)

/-- Forget the id field (renumbering rewrites every id, so entry contents are
compared with ids erased). -/
def eraseId (co : ChangeOrder) : ChangeOrder := { co with id := 0 }

theorem renumberFrom_map_id (l : List ChangeOrder) (n : Int) :
    (renumberFrom n l).map ChangeOrder.id =
      (List.range l.length).map fun i : ℕ => n + (i : Int) := by
  induction l generalizing n with
  | nil => rfl
  | cons o os ih =>
    simp only [renumberFrom, List.map_cons, List.length_cons,
      List.range_succ_eq_map, List.map_map, ih]
    refine congrArg₂ List.cons (by simp) ?_
    refine List.map_congr_left fun i _ => ?_
    simp only [Function.comp_apply]
    push_cast
    ring

theorem renumberFrom_map_eraseId (l : List ChangeOrder) (n : Int) :
    (renumberFrom n l).map eraseId = l.map eraseId := by
  induction l generalizing n with
  | nil => rfl
  | cons o os ih => simp [renumberFrom, eraseId, ih]

theorem renumberFrom_map_date (getTime : String → Int) (l : List ChangeOrder)
    (n : Int) :
    ((renumberFrom n l).map fun o => getTime o.dateRequested) =
      l.map fun o => getTime o.dateRequested := by
  induction l generalizing n with
  | nil => rfl
  | cons o os ih => simp [renumberFrom, ih]

theorem renumberFrom_length (l : List ChangeOrder) (n : Int) :
    (renumberFrom n l).length = l.length := by
  induction l generalizing n with
  | nil => rfl
  | cons o os ih => simp [renumberFrom, ih]

theorem renumberFrom_renumberFrom (l : List ChangeOrder) (n : Int) :
    renumberFrom n (renumberFrom n l) = renumberFrom n l := by
  induction l generalizing n with
  | nil => rfl
  | cons o os ih => simp [renumberFrom, ih]

theorem sorted_renumberFrom (getTime : String → Int) (n : Int)
    (l : List ChangeOrder) (h : List.Sorted (dateLe getTime) l) :
    List.Sorted (dateLe getTime) (renumberFrom n l) := by
  have h1 : List.Pairwise (fun x y : Int => x ≤ y)
      (l.map fun o => getTime o.dateRequested) :=
    List.pairwise_map.mpr h
  have h2 : List.Pairwise (fun x y : Int => x ≤ y)
      ((renumberFrom n l).map fun o => getTime o.dateRequested) := by
    rw [renumberFrom_map_date]; exact h1
  have h3 := List.pairwise_map.mp h2
  exact h3

theorem filter_orderedInsert_datekey (getTime : String → Int) (k : Int)
    (x : ChangeOrder) (l : List ChangeOrder) :
    (List.orderedInsert (dateLe getTime) x l).filter
        (fun o => getTime o.dateRequested == k) =
      if getTime x.dateRequested == k then
        x :: l.filter (fun o => getTime o.dateRequested == k)
      else l.filter (fun o => getTime o.dateRequested == k) := by
  induction l with
  | nil => simp [List.orderedInsert, List.filter_cons]
  | cons y ys ih =>
    by_cases hle : dateLe getTime x y
    · rw [List.orderedInsert_of_le _ _ hle]
      by_cases hx : (getTime x.dateRequested == k) = true <;>
        simp [List.filter_cons, hx]
    · have heq : List.orderedInsert (dateLe getTime) x (y :: ys) =
          y :: List.orderedInsert (dateLe getTime) x ys := by
        simp [List.orderedInsert, hle]
      rw [heq]
      have hlt : getTime y.dateRequested < getTime x.dateRequested :=
        not_le.mp (by simpa [dateLe] using hle)
      by_cases hx : (getTime x.dateRequested == k) = true
      · have hk : getTime x.dateRequested = k := by simpa using hx
        have hy : getTime y.dateRequested ≠ k := by omega
        simp [List.filter_cons, hy, ih, hx]
      · simp [List.filter_cons, ih, hx]

theorem filter_insertionSort_datekey (getTime : String → Int) (k : Int)
    (l : List ChangeOrder) :
    (List.insertionSort (dateLe getTime) l).filter
        (fun o => getTime o.dateRequested == k) =
      l.filter (fun o => getTime o.dateRequested == k) := by
  induction l with
  | nil => rfl
  | cons x xs ih =>
    simp only [List.insertionSort]
    rw [filter_orderedInsert_datekey]
    by_cases hx : (getTime x.dateRequested == k) = true <;>
      simp [List.filter_cons, hx, ih]

theorem renumberFrom_filter_datekey (getTime : String → Int) (k : Int)
    (n : Int) (l : List ChangeOrder) :
    ((renumberFrom n l).filter (fun o => getTime o.dateRequested == k)).map
        eraseId =
      (l.filter (fun o => getTime o.dateRequested == k)).map eraseId := by
  induction l generalizing n with
  | nil => rfl
  | cons o os ih =>
    simp only [renumberFrom, List.filter_cons]
    by_cases hx : (getTime o.dateRequested == k) = true
    · simp [hx, ih, eraseId]
    · simp [hx, ih]

/-- C4. On a non-empty collection, `handleRenumber` produces exactly the ids
`1..N` positionally, leaves the collection sorted ascending by
`dateRequested`, keeps entries with an equal date key in their original
relative order with their contents untouched (ids aside), permutes the
original contents, and is idempotent: renumbering the renumbered collection
changes nothing. -/
theorem renumber_spec (getTime : String → Int) (orders : List ChangeOrder)
    (h : orders ≠ []) :
    (handleRenumber getTime orders).map ChangeOrder.id =
        (List.range orders.length).map (fun i : ℕ => (i : Int) + 1) ∧
    List.Sorted (dateLe getTime) (handleRenumber getTime orders) ∧
    (∀ k : Int,
        ((handleRenumber getTime orders).filter
            (fun o => getTime o.dateRequested == k)).map eraseId =
          (orders.filter (fun o => getTime o.dateRequested == k)).map eraseId) ∧
    ((handleRenumber getTime orders).map eraseId).Perm (orders.map eraseId) ∧
    handleRenumber getTime (handleRenumber getTime orders) =
      handleRenumber getTime orders := by
  have hlen : ¬ orders.length = 0 := by
    simpa [List.length_eq_zero] using h
  have hbranch : handleRenumber getTime orders =
      renumberFrom 1 (List.insertionSort (dateLe getTime) orders) := by
    simp [handleRenumber, hlen]
  refine ⟨?_, ?_, ?_, ?_, ?_⟩
  · rw [hbranch, renumberFrom_map_id, List.length_insertionSort]
    exact List.map_congr_left fun i _ => add_comm 1 (i : Int)
  · rw [hbranch]
    exact sorted_renumberFrom getTime 1 _
      (List.sorted_insertionSort (dateLe getTime) orders)
  · intro k
    rw [hbranch, renumberFrom_filter_datekey, filter_insertionSort_datekey]
  · rw [hbranch, renumberFrom_map_eraseId]
    exact (List.perm_insertionSort (dateLe getTime) orders).map eraseId
  · have hsorted : List.Sorted (dateLe getTime)
        (renumberFrom 1 (List.insertionSort (dateLe getTime) orders)) :=
      sorted_renumberFrom getTime 1 _
        (List.sorted_insertionSort (dateLe getTime) orders)
    have hlen2 : ¬ (renumberFrom 1
        (List.insertionSort (dateLe getTime) orders)).length = 0 := by
      rw [renumberFrom_length, List.length_insertionSort]
      exact hlen
    rw [hbranch]
    simp only [handleRenumber, hlen2, if_neg, ite_false]
    rw [List.Sorted.insertionSort_eq hsorted, renumberFrom_renumberFrom]

def c4march : ChangeOrder :=
  { id := 9, title := "March work", description := "d", reason := "r",
    status := ChangeOrderStatus.PendingApproval, dateRequested := "aaa",
    costImpactEquipment := 0, costImpactInstallation := 0, costImpactOther := 0,
    otherCostsExplanation := "", scheduleImpactDays := 0, approvals := [] }

def c4january : ChangeOrder :=
  { c4march with id := 5, title := "January work", dateRequested := "a" }

/-- Witness for `renumber_spec`: with date keys read off as string lengths,
renumbering `[id 9 @ key 3, id 5 @ key 1]` yields ids `[1, 2]` and a second
renumbering changes nothing. -/
theorem renumber_spec_witness :
    ([c4march, c4january] : List ChangeOrder) ≠ [] ∧
    (handleRenumber (fun s => (s.length : Int)) [c4march, c4january]).map
        ChangeOrder.id = [1, 2] ∧
    handleRenumber (fun s => (s.length : Int))
        (handleRenumber (fun s => (s.length : Int)) [c4march, c4january]) =
      handleRenumber (fun s => (s.length : Int)) [c4march, c4january] := by
  refine ⟨by simp, ?_,
    (renumber_spec (fun s => (s.length : Int)) [c4march, c4january]
        (by simp)).2.2.2.2⟩
  rw [(renumber_spec (fun s => (s.length : Int)) [c4march, c4january]
      (by simp)).1]
  rfl

/-- JS `String.prototype.trim`: drop whitespace from both ends. -/
def jsTrim (s : String) : String :=
  ⟨((s.data.dropWhile Char.isWhitespace).reverse.dropWhile
      Char.isWhitespace).reverse⟩

/-- `interface InternalApproverControl` from `src/index.tsx`: one editable row
per configured internal role; `approvalDate` is a string whose empty value is
the falsy date sentinel. -/
structure InternalApproverControl where
  role : String
  included : Bool
  status : ApprovalStatus
  approvalDate : String
deriving DecidableEq, Repr

/-- A third-party approver row of the form (an `Approval` whose
`approvalDate` has been coerced to a string, `''` for absent). -/
structure ThirdPartyRow where
  name : String
  status : ApprovalStatus
  approvalDate : String
deriving DecidableEq, Repr

/-- JS `app.approvalDate || null`: the empty string becomes `null`. -/
def strOrNull (s : String) : Option String :=
  if s = "" then none else some s

/-- One step of `internalApprovers.forEach` in `handleSubmit`
(`src/index.tsx` lines 1107–1112): push the emitted approval when the row is
included. -/
def pushInternal (approverConfig : String → String) (acc : List Approval)
    (app : InternalApproverControl) : List Approval :=
  if app.included then
    acc ++ [{ name := approverConfig app.role, status := app.status,
              approvalDate := strOrNull app.approvalDate }]
  else acc

/-- One step of `thirdPartyApprovers.forEach` in `handleSubmit`
(`src/index.tsx` lines 1114–1118): push the row when its name is non-empty
(truthy). -/
def pushThirdParty (acc : List Approval) (app : ThirdPartyRow) : List Approval :=
  if app.name ≠ "" then
    acc ++ [{ name := app.name, status := app.status,
              approvalDate := strOrNull app.approvalDate }]
  else acc

/-- The `finalApprovals` sequence built by `handleSubmit` at collapse time:
the internal control rows folded first, then the third-party rows. -/
def finalApprovals (approverConfig : String → String)
    (internals : List InternalApproverControl) (thirds : List ThirdPartyRow) :
    List Approval :=
  thirds.foldl pushThirdParty (internals.foldl (pushInternal approverConfig) [])

/-- The collapse as the spec states it (§4.2): the included internal rows, in
role order, each emitted as configured-name/status/date, followed by the
third-party rows with non-empty names, in their current order; all other rows
dropped silently. Stated separately from `finalApprovals` so the source's
fold can be proved to refine it. -/
def collapseSpec (approverConfig : String → String)
    (internals : List InternalApproverControl) (thirds : List ThirdPartyRow) :
    List Approval :=
  ((internals.filter fun app => app.included).map fun app =>
      { name := approverConfig app.role, status := app.status,
        approvalDate := strOrNull app.approvalDate }) ++
    ((thirds.filter fun app => app.name != "").map fun app =>
      { name := app.name, status := app.status,
        approvalDate := strOrNull app.approvalDate })

theorem foldl_pushInternal (approverConfig : String → String)
    (l : List InternalApproverControl) (acc : List Approval) :
    l.foldl (pushInternal approverConfig) acc =
      acc ++ ((l.filter fun app => app.included).map fun app =>
        { name := approverConfig app.role, status := app.status,
          approvalDate := strOrNull app.approvalDate }) := by
  induction l generalizing acc with
  | nil => simp
  | cons x xs ih =>
    cases hinc : x.included <;>
      simp [List.foldl_cons, pushInternal, hinc, List.filter_cons, ih]

theorem foldl_pushThirdParty (l : List ThirdPartyRow) (acc : List Approval) :
    l.foldl pushThirdParty acc =
      acc ++ ((l.filter fun app => app.name != "").map fun app =>
        { name := app.name, status := app.status,
          approvalDate := strOrNull app.approvalDate }) := by
  induction l generalizing acc with
  | nil => simp
  | cons x xs ih =>
    by_cases hname : x.name = "" <;>
      simp [List.foldl_cons, pushThirdParty, hname, List.filter_cons, ih]

/-- C5. At commit, the `finalApprovals` sequence built by `handleSubmit` is
exactly: the internal control rows with `included = true`, in their role
order, each emitted as the configured name of the role with the row's status
and (nullified-if-empty) date, followed by the third-party rows with
non-empty names in their current order; all other rows are dropped silently —
the fold is total and never errors. -/
theorem finalApprovals_eq_collapseSpec (approverConfig : String → String)
    (internals : List InternalApproverControl) (thirds : List ThirdPartyRow) :
    finalApprovals approverConfig internals thirds =
      collapseSpec approverConfig internals thirds := by
  rw [finalApprovals, foldl_pushInternal, List.nil_append, foldl_pushThirdParty,
    collapseSpec]

/-- JS `parseFloat(value) || 0` from `handleChange` on numeric inputs
(`src/index.tsx` line 1015): `NaN` (unparsable) and `0` both collapse to `0`. -/
def processNumericValue (parsed : Option ℚ) : ℚ :=
  match parsed with
  | none => 0
  | some x => if x = 0 then 0 else x

/-- JS `parseFloat(value) < 0` from the real-time numeric validation of
`handleChange` (`src/index.tsx` lines 1021–1029): marks a per-field display
error; `NaN < 0` is false, so unparsable input is never flagged. -/
def numericErrorFlag (parsed : Option ℚ) : Bool :=
  match parsed with
  | none => false
  | some x => decide (x < 0)

/-- The commit gate of `handleSubmit` (`src/index.tsx` lines 1079–1121):
validation blocks submission only when a required text field is empty after
trimming; otherwise the form data, with the collapsed approvals, is handed to
`onSave` (modelled as returning `some order`). -/
def handleSubmit (approverConfig : String → String) (formData : ChangeOrder)
    (internals : List InternalApproverControl) (thirds : List ThirdPartyRow) :
    Option ChangeOrder :=
  if jsTrim formData.title = "" ∨ jsTrim formData.description = "" ∨
      jsTrim formData.reason = "" then
    none
  else
    some { formData with
             approvals := finalApprovals approverConfig internals thirds }

def c9form : ChangeOrder :=
  { id := 0, title := "Install new valve", description := "desc",
    reason := "why", status := ChangeOrderStatus.PendingApproval,
    dateRequested := "2024-05-01", costImpactEquipment := -5,
    costImpactInstallation := 0, costImpactOther := 0,
    otherCostsExplanation := "", scheduleImpactDays := 0, approvals := [] }

/-- Counterexample to C9: a save attempt whose `costImpactEquipment` is `-5`
(negative, and flagged by the per-field numeric validation) is NOT blocked —
`handleSubmit` hands the order, negative field included, to the store. -/
theorem negative_cost_not_blocked_counterexample :
    c9form.costImpactEquipment < 0 ∧
    numericErrorFlag (some c9form.costImpactEquipment) = true ∧
    handleSubmit (fun _ => "") c9form [] [] = some c9form := by
  refine ⟨by norm_num [c9form], by norm_num [c9form, numericErrorFlag], rfl⟩

/-- C9 (amended). Commit is blocked exactly when a required text field
(title, description, reason) is empty after trimming; numeric fields never
block — a committed order carries the form's numeric values unchanged, even
negative ones. Unparsable numeric input is coerced to `0` when typed, and a
negative parsed value only raises the per-field display error. -/
theorem submit_blocks_only_empty_required_text (approverConfig : String → String)
    (formData : ChangeOrder) (internals : List InternalApproverControl)
    (thirds : List ThirdPartyRow) :
    (handleSubmit approverConfig formData internals thirds = none ↔
      (jsTrim formData.title = "" ∨ jsTrim formData.description = "" ∨
        jsTrim formData.reason = "")) ∧
    (∀ o, handleSubmit approverConfig formData internals thirds = some o →
      o.costImpactEquipment = formData.costImpactEquipment ∧
      o.costImpactInstallation = formData.costImpactInstallation ∧
      o.costImpactOther = formData.costImpactOther ∧
      o.scheduleImpactDays = formData.scheduleImpactDays) ∧
    (∀ parsed : Option ℚ, processNumericValue parsed = parsed.getD 0) ∧
    (∀ x : ℚ, numericErrorFlag (some x) = true ↔ x < 0) ∧
    numericErrorFlag none = false := by
  refine ⟨?_, ?_, ?_, ?_, rfl⟩
  · unfold handleSubmit
    split_ifs with hcond
    · simp [hcond]
    · simp [hcond]
  · intro o ho
    unfold handleSubmit at ho
    split_ifs at ho
    cases ho
    simp
  · intro parsed
    cases parsed with
    | none => rfl
    | some x => by_cases hx : x = 0 <;> simp [processNumericValue, hx]
  · intro x
    simp [numericErrorFlag]

/-- Witness for `submit_blocks_only_empty_required_text`: an empty title
blocks the commit, and unparsable numeric input is stored as `0`. -/
theorem submit_blocks_witness :
    handleSubmit (fun _ => "") { c9form with title := "" } [] [] = none ∧
    processNumericValue (none : Option ℚ) = 0 := by
  constructor
  · exact (submit_blocks_only_empty_required_text (fun _ => "")
        { c9form with title := "" } [] []).1.mpr (Or.inl rfl)
  · simpa using (submit_blocks_only_empty_required_text (fun _ => "")
        { c9form with title := "" } [] []).2.2.1 none

/-- JS `String.prototype.toLowerCase` (per-character lowering). -/
def jsToLower (s : String) : String := ⟨s.data.map Char.toLower⟩

/-- JS `String.prototype.includes`: the needle occurs contiguously in the
haystack. -/
def strIncludes (hay needle : String) : Bool :=
  decide (needle.data.IsInfix hay.data)

/-- The `filters` state of `ChangeOrderTable` (`src/index.tsx`
lines 716–725): all raw input strings. -/
structure Filters where
  id : String
  title : String
  status : String
  dateRequested : String
  costMin : String
  costMax : String
  scheduleMin : String
  scheduleMax : String
deriving DecidableEq, Repr

/-- The initial / cleared filter state: empty strings and the `"All"` status
sentinel. -/
def defaultFilters : Filters :=
  { id := "", title := "", status := "All", dateRequested := "",
    costMin := "", costMax := "", scheduleMin := "", scheduleMax := "" }

/-- The per-row predicate of `filteredChangeOrders` (`src/index.tsx`
lines 745–766).  An empty criterion string is falsy and disables its clause;
`pf`/`pint` model `parseFloat`/`parseInt`, with `none` for `NaN` (an
unparsable bound is ignored); `getTime` models `new Date(s).getTime()`. -/
def coMatchesFilters (getTime : String → Int) (pf : String → Option ℚ)
    (pint : String → Option Int) (filters : Filters) (co : ChangeOrder) :
    Bool :=
  let totalCost := co.costImpactEquipment + co.costImpactInstallation +
    co.costImpactOther
  let idMatch :=
    if filters.id = "" then true else strIncludes (toString co.id) filters.id
  let titleMatch :=
    if filters.title = "" then true
    else strIncludes (jsToLower co.title) (jsToLower filters.title)
  let statusMatch :=
    if filters.status = "All" then true
    else statusToString co.status == filters.status
  let dateMatch :=
    if filters.dateRequested = "" then true
    else decide (getTime filters.dateRequested ≤ getTime co.dateRequested)
  let costMinMatch :=
    match pf filters.costMin with
    | some m => decide (m ≤ totalCost)
    | none => true
  let costMaxMatch :=
    match pf filters.costMax with
    | some m => decide (totalCost ≤ m)
    | none => true
  let scheduleMinMatch :=
    match pint filters.scheduleMin with
    | some m => decide ((m : ℚ) ≤ co.scheduleImpactDays)
    | none => true
  let scheduleMaxMatch :=
    match pint filters.scheduleMax with
    | some m => decide (co.scheduleImpactDays ≤ (m : ℚ))
    | none => true
  idMatch && titleMatch && statusMatch && dateMatch && costMinMatch &&
    costMaxMatch && scheduleMinMatch && scheduleMaxMatch

/-- `filteredChangeOrders` (`src/index.tsx` lines 745–766): the collection
filtered by the conjunction of all active criteria, order preserved. -/
def filteredChangeOrders (getTime : String → Int) (pf : String → Option ℚ)
    (pint : String → Option Int) (filters : Filters)
    (orders : List ChangeOrder) : List ChangeOrder :=
  orders.filter (coMatchesFilters getTime pf pint filters)

/-- `totalCostImpact` (`src/index.tsx` lines 815–819): the displayed
aggregate, a reduce over the FILTERED view summing the three cost fields. -/
def totalCostImpact (getTime : String → Int) (pf : String → Option ℚ)
    (pint : String → Option Int) (filters : Filters)
    (orders : List ChangeOrder) : ℚ :=
  (filteredChangeOrders getTime pf pint filters orders).foldl
    (fun total order => total + order.costImpactEquipment +
      order.costImpactInstallation + order.costImpactOther) 0

theorem foldl_totalCost (l : List ChangeOrder) (init : ℚ) :
    l.foldl (fun total order => total + order.costImpactEquipment +
        order.costImpactInstallation + order.costImpactOther) init =
      init + (l.map ChangeOrder.totalCost).sum := by
  induction l generalizing init with
  | nil => simp
  | cons x xs ih =>
    simp only [List.foldl_cons, ih, List.map_cons, List.sum_cons,
      ChangeOrder.totalCost]
    ring

/-- C6. Filtering with the all-default criteria returns the whole collection,
unchanged and in order (every clause is disabled: empty strings are falsy and
`parseFloat`/`parseInt` of `""` is `NaN`); and for EVERY filter criteria the
displayed aggregate equals the sum of `totalCost` over exactly the filtered
entries. -/
theorem filter_defaults_identity_and_total (getTime : String → Int)
    (pf : String → Option ℚ) (pint : String → Option Int)
    (hpf : pf "" = none) (hpint : pint "" = none)
    (orders : List ChangeOrder) (filters : Filters) :
    filteredChangeOrders getTime pf pint defaultFilters orders = orders ∧
    totalCostImpact getTime pf pint filters orders =
      ((filteredChangeOrders getTime pf pint filters orders).map
        ChangeOrder.totalCost).sum := by
  constructor
  · refine List.filter_eq_self.mpr fun co _ => ?_
    simp [coMatchesFilters, defaultFilters, hpf, hpint]
  · rw [totalCostImpact, foldl_totalCost, zero_add]

def c6order : ChangeOrder :=
  { id := 2, title := "Pipe reroute", description := "d", reason := "r",
    status := ChangeOrderStatus.Approved, dateRequested := "2024-02-02",
    costImpactEquipment := 700, costImpactInstallation := 400,
    costImpactOther := 100, otherCostsExplanation := "",
    scheduleImpactDays := 3, approvals := [] }

/-- Witness for `filter_defaults_identity_and_total`: the default criteria
keep the one-entry collection intact and the aggregate is its total cost. -/
theorem filter_defaults_witness :
    filteredChangeOrders (fun _ => 0) (fun _ => none) (fun _ => none)
        defaultFilters [c6order] = [c6order] ∧
    totalCostImpact (fun _ => 0) (fun _ => none) (fun _ => none)
        defaultFilters [c6order] = 1200 := by
  have h := filter_defaults_identity_and_total (fun _ => 0) (fun _ => none)
    (fun _ => none) rfl rfl [c6order] defaultFilters
  refine ⟨h.1, ?_⟩
  rw [h.2, h.1]
  norm_num [ChangeOrder.totalCost, c6order]

/-- The JSON value universe produced by `JSON.parse` on valid input. -/
inductive Json where
  | null
  | bool (b : Bool)
  | num (q : ℚ)
  | str (s : String)
  | arr (elems : List Json)
  | obj (fields : List (String × Json))

/-- JS property access `data.key` on a parsed JSON value: a lookup on
objects, `undefined` (here `none`) on everything else. -/
def Json.get (j : Json) (key : String) : Option Json :=
  match j with
  | Json.obj fields => fields.lookup key
  | _ => none

/-- JS truthiness of a parsed JSON value (`!data.settings` uses it):
`null`, `false`, `0` and `""` are falsy; arrays and objects are truthy. -/
def jsTruthy : Json → Bool
  | Json.null => false
  | Json.bool b => b
  | Json.num q => decide (q ≠ 0)
  | Json.str s => decide (s ≠ "")
  | Json.arr _ => true
  | Json.obj _ => true

/-- The state touched by `handleFileImport`: the raw imported values (the
source stores whatever the file held, with no per-order validation) and the
selection. -/
structure ImportState where
  settings : Json
  changeOrders : Json
  selectedOrderIds : Finset Int

/-- `handleFileImport` (`src/index.tsx` lines 483–528): `JSON.parse` result
as `Option Json` (`none` = parse threw).  Structural validation only:
`data.settings` truthy and `Array.isArray(data.changeOrders)`; any failure is
caught, reported (`Bool` result `true` = error alert) and leaves the state
untouched; success swaps settings and collection together and clears the
selection. -/
def handleFileImport (parsed : Option Json) (s : ImportState) :
    ImportState × Bool :=
  match parsed with
  | none => (s, true)
  | some data =>
    match data.get "settings", data.get "changeOrders" with
    | some sv, some (Json.arr elems) =>
        if jsTruthy sv then
          ({ settings := sv, changeOrders := Json.arr elems,
             selectedOrderIds := ∅ }, false)
        else (s, true)
    | _, _ => (s, true)

/-- C8. Import validation: when the content is not valid JSON, or `settings`
is missing/falsy, or `changeOrders` is not an array, the import reports an
error and the previous state (settings AND collection AND selection) is kept
exactly; when the structural validation passes, settings and collection are
both replaced with the imported values and no error is reported. -/
theorem import_validates_or_preserves (parsed : Option Json) (s : ImportState) :
    (¬ (∃ data, parsed = some data ∧
          (∃ sv, data.get "settings" = some sv ∧ jsTruthy sv = true) ∧
          (∃ elems, data.get "changeOrders" = some (Json.arr elems))) →
      (handleFileImport parsed s).2 = true ∧ (handleFileImport parsed s).1 = s) ∧
    (∀ data sv elems, parsed = some data →
      data.get "settings" = some sv → jsTruthy sv = true →
      data.get "changeOrders" = some (Json.arr elems) →
      (handleFileImport parsed s).2 = false ∧
      (handleFileImport parsed s).1.settings = sv ∧
      (handleFileImport parsed s).1.changeOrders = Json.arr elems) := by
  constructor
  · intro hinvalid
    cases parsed with
    | none => exact ⟨rfl, rfl⟩
    | some data =>
      rcases hset : data.get "settings" with _ | sv
      · simp [handleFileImport, hset]
      · rcases hco : data.get "changeOrders" with _ | co
        · simp [handleFileImport, hset, hco]
        · cases co with
          | arr elems =>
            have hfalse : jsTruthy sv = false := by
              rcases Bool.eq_false_or_eq_true (jsTruthy sv) with hb | hb
              · exact absurd ⟨data, rfl, ⟨sv, hset, hb⟩, ⟨elems, hco⟩⟩ hinvalid
              · exact hb
            simp [handleFileImport, hset, hco, hfalse]
          | null => simp [handleFileImport, hset, hco]
          | bool b => simp [handleFileImport, hset, hco]
          | num q => simp [handleFileImport, hset, hco]
          | str t => simp [handleFileImport, hset, hco]
          | obj fields => simp [handleFileImport, hset, hco]
  · intro data sv elems hparsed hset htruthy hco
    subst hparsed
    simp [handleFileImport, hset, hco, htruthy]

def c8doc : Json :=
  Json.obj [("settings", Json.obj [("projectName", Json.str "P")]),
            ("changeOrders", Json.arr [])]

def c8state : ImportState :=
  { settings := Json.null, changeOrders := Json.null, selectedOrderIds := ∅ }

/-- Witness for `import_validates_or_preserves`: a well-formed document is
accepted and swapped in; unparsable content (`none`) preserves the state. -/
theorem import_validates_witness :
    (handleFileImport (some c8doc) c8state).2 = false ∧
    (handleFileImport (some c8doc) c8state).1.settings =
      Json.obj [("projectName", Json.str "P")] ∧
    (handleFileImport none c8state).1 = c8state := by
  have hgood := (import_validates_or_preserves (some c8doc) c8state).2 c8doc
    (Json.obj [("projectName", Json.str "P")]) [] rfl rfl rfl rfl
  have hbad := (import_validates_or_preserves none c8state).1
    (by rintro ⟨d, hd, -, -⟩; exact Option.noConfusion hd)
  exact ⟨hgood.1, hgood.2.1, hbad.2⟩

/-- The slice of `App` state that the collection mutations touch. -/
structure AppState where
  changeOrders : List ChangeOrder
  selectedOrderIds : Finset Int

/-- `handleSave` as a state transition (`src/index.tsx` lines 380–411): both
branches end with `setSelectedOrderIds(new Set())`. -/
def handleSaveState (s : AppState) (orderFromForm : ChangeOrder) : AppState :=
  { changeOrders := handleSaveOrders s.changeOrders orderFromForm,
    selectedOrderIds := ∅ }

/-- `executeDelete` (`src/index.tsx` lines 421–425): drop the selected
entries, then clear the selection. -/
def executeDelete (s : AppState) : AppState :=
  { changeOrders :=
      s.changeOrders.filter fun co => !decide (co.id ∈ s.selectedOrderIds),
    selectedOrderIds := ∅ }

/-- `handleRenumber` as a state transition (`src/index.tsx` lines 427–447):
the empty-collection early return changes nothing; otherwise renumber and
clear the selection. -/
def handleRenumberState (getTime : String → Int) (s : AppState) : AppState :=
  if s.changeOrders.length = 0 then s
  else { changeOrders := handleRenumber getTime s.changeOrders,
         selectedOrderIds := ∅ }

/-- C10. Every completed collection mutation resets the selection to empty:
saving (create or update), a confirmed delete, a renumbering of a non-empty
collection, and a structurally valid import all leave
`selectedOrderIds = ∅`, so no stale id survives the mutation. -/
theorem mutations_clear_selection :
    (∀ (s : AppState) (orderFromForm : ChangeOrder),
        (handleSaveState s orderFromForm).selectedOrderIds = ∅) ∧
    (∀ s : AppState, (executeDelete s).selectedOrderIds = ∅) ∧
    (∀ (getTime : String → Int) (s : AppState), s.changeOrders ≠ [] →
        (handleRenumberState getTime s).selectedOrderIds = ∅) ∧
    (∀ (parsed : Option Json) (s : ImportState),
        (handleFileImport parsed s).2 = false →
        (handleFileImport parsed s).1.selectedOrderIds = ∅) := by
  refine ⟨fun _ _ => rfl, fun _ => rfl, ?_, ?_⟩
  · intro getTime s h
    have hlen : ¬ s.changeOrders.length = 0 := by
      simpa [List.length_eq_zero] using h
    simp [handleRenumberState, hlen]
  · intro parsed s hok
    cases parsed with
    | none => simp [handleFileImport] at hok
    | some data =>
      rcases hset : data.get "settings" with _ | sv
      · simp [handleFileImport, hset] at hok
      · rcases hco : data.get "changeOrders" with _ | co
        · simp [handleFileImport, hset, hco] at hok
        · cases co with
          | arr elems =>
            rcases Bool.eq_false_or_eq_true (jsTruthy sv) with ht | ht
            · simp [handleFileImport, hset, hco, ht]
            · simp [handleFileImport, hset, hco, ht] at hok
          | null => simp [handleFileImport, hset, hco] at hok
          | bool b => simp [handleFileImport, hset, hco] at hok
          | num q => simp [handleFileImport, hset, hco] at hok
          | str t => simp [handleFileImport, hset, hco] at hok
          | obj fields => simp [handleFileImport, hset, hco] at hok

def c10order : ChangeOrder :=
  { id := 4, title := "t", description := "d", reason := "r",
    status := ChangeOrderStatus.PendingApproval, dateRequested := "2024-03-03",
    costImpactEquipment := 0, costImpactInstallation := 0, costImpactOther := 0,
    otherCostsExplanation := "", scheduleImpactDays := 0, approvals := [] }

/-- Witness for `mutations_clear_selection`: a save and a non-empty
renumbering both clear a previously non-empty selection. -/
theorem mutations_clear_selection_witness :
    (handleSaveState { changeOrders := [], selectedOrderIds := {7} }
        c10order).selectedOrderIds = ∅ ∧
    ([c10order] : List ChangeOrder) ≠ [] ∧
    (handleRenumberState (fun _ => 0)
        { changeOrders := [c10order], selectedOrderIds := {7} }).selectedOrderIds
      = ∅ := by
  refine ⟨mutations_clear_selection.1 _ _, by simp, ?_⟩
  exact mutations_clear_selection.2.2.1 (fun _ => 0)
    { changeOrders := [c10order], selectedOrderIds := {7} } (by simp)
